import Mathlib

/-!
Verification of the Enhanced Memory System of the `ai-system` repository.

The development shallowly embeds the memory subsystem:
  * `src/memory/knowledge_graph.py` (KnowledgeGraph, PersonalityGraph),
  * `src/memory/enhanced_memory.py` (EnhancedMemorySystem),
  * `src/memory/vector_db/chroma_manager.py` (ChromaMemoryManager).

Python dict values that occur in node/edge attributes are either strings or
numbers; they are modelled by `AttrVal`.  Python dicts are modelled by
association lists with in-place overwrite (`dinsert`), which reproduces
insertion-order semantics of CPython dicts.  Machine timestamps are threaded
through as explicit `now` arguments.  Fallible operations return `Except`.
-/

set_option maxHeartbeats 1000000

namespace AISystem

/-- A Python attribute value: a string or a number. -/
inductive AttrVal where
  | vstr (s : String)
  | vnum (q : ℚ)
deriving DecidableEq, Repr

/-- A Python dict with string keys, as an insertion-ordered association list. -/
abbrev Dict := List (String × AttrVal)

/-- `d[k] = v` on a Python dict: overwrite in place if the key exists,
append at the end otherwise. -/
def dinsert : Dict → String → AttrVal → Dict
  | [], k, v => [(k, v)]
  | (k1, v1) :: t, k, v => if k1 = k then (k, v) :: t else (k1, v1) :: dinsert t k v

/-- `d.get(k)` on a Python dict. -/
def dget : Dict → String → Option AttrVal
  | [], _ => none
  | (k1, v1) :: t, k => if k1 = k then some v1 else dget t k

/-- `d.update(u)` on a Python dict: successive insertion of the entries of `u`. -/
def dupdate (d : Dict) (u : Dict) : Dict :=
  u.foldl (fun acc kv => dinsert acc kv.1 kv.2) d

/-- Left-biased choice on options (used to state lookup lemmas). -/
def oOr : Option AttrVal → Option AttrVal → Option AttrVal
  | some v, _ => some v
  | none, b => b

/-- The last binding of key `k` in an association list (later entries win). -/
def dlast : Dict → String → Option AttrVal
  | [], _ => none
  | (k1, v1) :: t, k =>
      match dlast t k with
      | some w => some w
      | none => if k1 = k then some v1 else none

theorem oOr_assoc (a b c : Option AttrVal) : oOr (oOr a b) c = oOr a (oOr b c) := by
  cases a <;> cases b <;> rfl

theorem oOr_none_left (b : Option AttrVal) : oOr none b = b := rfl

theorem dget_dinsert (d : Dict) (k k2 : String) (v : AttrVal) :
    dget (dinsert d k v) k2 = if k = k2 then some v else dget d k2 := by
  induction d with
  | nil => simp [dinsert, dget]
  | cons hd t ih =>
      obtain ⟨k1, v1⟩ := hd
      by_cases h1 : k1 = k
      · subst h1
        by_cases h2 : k1 = k2
        · subst h2
          simp [dinsert, dget]
        · simp [dinsert, dget, h2]
      · by_cases h2 : k1 = k2
        · subst h2
          have hne : ¬ k = k1 := fun h => h1 h.symm
          simp [dinsert, dget, h1, hne]
        · simp [dinsert, dget, h1, h2, ih]

theorem dget_dupdate (d u : Dict) (k : String) :
    dget (dupdate d u) k = oOr (dlast u k) (dget d k) := by
  induction u generalizing d with
  | nil => simp [dupdate, dlast, oOr_none_left]
  | cons hd t ih =>
      obtain ⟨k1, v1⟩ := hd
      have step : dupdate d ((k1, v1) :: t) = dupdate (dinsert d k1 v1) t := rfl
      rw [step, ih]
      have hlast : dlast ((k1, v1) :: t) k
          = oOr (dlast t k) (if k1 = k then some v1 else none) := by
        simp only [dlast]
        cases dlast t k <;> rfl
      rw [hlast, oOr_assoc]
      congr 1
      rw [dget_dinsert]
      by_cases h : k1 = k <;> simp [h, oOr]

/-- Number of entries in a node list carrying a given id. -/
def countId (ns : List (String × Dict)) (i : String) : Nat :=
  (ns.filter (fun p => p.1 = i)).length

/-- `graph.add_node(i, **attrs)` of networkx: update attributes in place if the
node exists, append a fresh node otherwise. -/
def addNodeNx : List (String × Dict) → String → Dict → List (String × Dict)
  | [], i, attrs => [(i, attrs)]
  | (i1, d1) :: t, i, attrs =>
      if i1 = i then (i1, dupdate d1 attrs) :: t else (i1, d1) :: addNodeNx t i attrs

/-- Lookup of a node attribute dict by node id. -/
def nodeAttrs : List (String × Dict) → String → Option Dict
  | [], _ => none
  | (i1, d1) :: t, i => if i1 = i then some d1 else nodeAttrs t i

/-- Per-entity-type diagnostic metadata kept by `KnowledgeGraph`. -/
structure MetaEntry where
  count : Nat
  examples : List String
deriving DecidableEq, Repr

/-- Association-list update for the metadata map. -/
def metaSet : List (String × MetaEntry) → String → MetaEntry → List (String × MetaEntry)
  | [], k, v => [(k, v)]
  | (k1, v1) :: t, k, v => if k1 = k then (k, v) :: t else (k1, v1) :: metaSet t k v

/-- Association-list lookup for the metadata map. -/
def metaGet : List (String × MetaEntry) → String → Option MetaEntry
  | [], _ => none
  | (k1, v1) :: t, k => if k1 = k then some v1 else metaGet t k

/-- State of a `KnowledgeGraph`: a `networkx.MultiDiGraph` (node list with
attribute dicts, multi-edge list) plus the per-type metadata map. -/
structure KG where
  nodes : List (String × Dict)
  edges : List (String × String × Dict)
  metadata : List (String × MetaEntry)
deriving DecidableEq, Repr

/-- The empty knowledge graph (fresh store, nothing on disk). -/
def emptyKG : KG := { nodes := [], edges := [], metadata := [] }

/-- `graph.has_node(i)`. -/
def hasNode (g : KG) (i : String) : Bool :=
  g.nodes.any (fun p => p.1 = i)

/-- `KnowledgeGraph.add_entity(entity_id, entity_type, properties)`:
build the attribute dict (reserved keys first, then `properties` override),
`add_node`, and bump the per-type metadata counter and example list. -/
def add_entity (g : KG) (entity_id entity_type : String) (properties : Dict)
    (now : String) : KG :=
  let node_attrs :=
    dupdate [("type", AttrVal.vstr entity_type),
             ("created_at", AttrVal.vstr now),
             ("updated_at", AttrVal.vstr now)] properties
  let e0 := (metaGet g.metadata entity_type).getD { count := 0, examples := [] }
  let e1 : MetaEntry := { e0 with count := e0.count + 1 }
  let e2 : MetaEntry :=
    if entity_id ∈ e1.examples then e1
    else
      let ex := e1.examples ++ [entity_id]
      { e1 with examples := if ex.length > 10 then ex.drop (ex.length - 10) else ex }
  { g with nodes := addNodeNx g.nodes entity_id node_attrs,
           metadata := metaSet g.metadata entity_type e2 }

/-- `graph.add_edge(s, t, **attrs)` of networkx on a `MultiDiGraph`: missing
endpoints are silently added with empty attribute dicts, and a new parallel
edge is appended. -/
def addEdgeNx (g : KG) (s t : String) (attrs : Dict) : KG :=
  let ns1 := if g.nodes.any (fun p => p.1 = s) then g.nodes else g.nodes ++ [(s, [])]
  let ns2 := if ns1.any (fun p => p.1 = t) then ns1 else ns1 ++ [(t, [])]
  { g with nodes := ns2, edges := g.edges ++ [(s, t, attrs)] }

/-- `KnowledgeGraph.add_relationship(source, target, relation_type, properties)`:
auto-create missing endpoints as type "unknown", then append the edge. -/
def add_relationship (g : KG) (source target relation_type : String)
    (properties : Dict) (now : String) : KG :=
  let g1 := if hasNode g source then g else add_entity g source "unknown" [] now
  let g2 := if hasNode g1 target then g1 else add_entity g1 target "unknown" [] now
  let edge_attrs :=
    dupdate [("type", AttrVal.vstr relation_type),
             ("created_at", AttrVal.vstr now),
             ("weight", AttrVal.vnum 1)] properties
  addEdgeNx g2 source target edge_attrs

/-- `KnowledgeGraph.get_entity(entity_id)`. -/
def get_entity (g : KG) (entity_id : String) : Option Dict :=
  nodeAttrs g.nodes entity_id

/-- Insertion into a list sorted by the boolean relation `le`. -/
def insertLe {α : Type} (le : α → α → Bool) (a : α) : List α → List α
  | [] => [a]
  | b :: t => if le a b then a :: b :: t else b :: insertLe le a t

/-- Insertion sort by the boolean relation `le` (models Python `list.sort`,
up to stability, which no claim depends on). -/
def sortLe {α : Type} (le : α → α → Bool) : List α → List α
  | [] => []
  | a :: t => insertLe le a (sortLe le t)

theorem mem_insertLe {α : Type} (le : α → α → Bool) (a x : α) (l : List α) :
    x ∈ insertLe le a l ↔ x = a ∨ x ∈ l := by
  induction l with
  | nil => simp [insertLe]
  | cons b t ih =>
      by_cases h : le a b
      · simp [insertLe, h]
      · simp [insertLe, h, ih]
        tauto

theorem mem_sortLe {α : Type} (le : α → α → Bool) (x : α) (l : List α) :
    x ∈ sortLe le l ↔ x ∈ l := by
  induction l with
  | nil => simp [sortLe]
  | cons a t ih => simp [sortLe, mem_insertLe, ih]

theorem pairwise_insertLe {α : Type} (le : α → α → Bool)
    (htot : ∀ a b, le a b = false → le b a = true)
    (htrans : ∀ a b c, le a b = true → le b c = true → le a c = true)
    (a : α) (l : List α)
    (h : l.Pairwise (fun x y => le x y = true)) :
    (insertLe le a l).Pairwise (fun x y => le x y = true) := by
  induction l with
  | nil => simp [insertLe]
  | cons b t ih =>
      rcases List.pairwise_cons.mp h with ⟨hb, ht⟩
      by_cases hab : le a b
      · rw [insertLe, if_pos hab]
        refine List.pairwise_cons.mpr ⟨?_, h⟩
        intro x hx
        rcases List.mem_cons.mp hx with hx | hx
        · rw [hx]
          exact hab
        · exact htrans a b x hab (hb x hx)
      · rw [insertLe, if_neg hab]
        refine List.pairwise_cons.mpr ⟨?_, ih ht⟩
        intro x hx
        rcases (mem_insertLe le a x t).mp hx with hx | hx
        · rw [hx]
          exact htot a b (by simpa using hab)
        · exact hb x hx

theorem pairwise_sortLe {α : Type} (le : α → α → Bool)
    (htot : ∀ a b, le a b = false → le b a = true)
    (htrans : ∀ a b c, le a b = true → le b c = true → le a c = true)
    (l : List α) :
    (sortLe le l).Pairwise (fun x y => le x y = true) := by
  induction l with
  | nil => simp [sortLe]
  | cons a t ih => exact pairwise_insertLe le htot htrans a (sortLe le t) ih

/-- A relationship record as returned by `get_relationships`. -/
structure Rel where
  direction : String
  source : String
  target : String
  rtype : AttrVal
  properties : Dict
deriving DecidableEq, Repr

/-- `edge_data.get("type", "unknown")`. -/
def edgeType (d : Dict) : AttrVal :=
  (dget d "type").getD (AttrVal.vstr "unknown")

/-- `KnowledgeGraph.get_relationships(entity_id)`: the outgoing then incoming
edges at the node.  Iterating `graph.successors` or `graph.predecessors` of a
node that is not in the graph raises `NetworkXError` in networkx; the raise is
modelled by `Except.error`.  The method itself performs no existence check. -/
def get_relationships (g : KG) (entity_id : String) : Except String (List Rel) :=
  if hasNode g entity_id then
    let outgoing := (g.edges.filter (fun e => e.1 = entity_id)).map (fun e =>
      { direction := "outgoing", source := entity_id, target := e.2.1,
        rtype := edgeType e.2.2, properties := e.2.2 : Rel })
    let incoming := (g.edges.filter (fun e => e.2.1 = entity_id)).map (fun e =>
      { direction := "incoming", source := e.1, target := entity_id,
        rtype := edgeType e.2.2, properties := e.2.2 : Rel })
    Except.ok (outgoing ++ incoming)
  else
    Except.error ("The node " ++ entity_id ++ " is not in the digraph.")

/-- Is the first char list a prefix of the second? -/
def listPre : List Char → List Char → Bool
  | [], _ => true
  | _ :: _, [] => false
  | a :: n, b :: h => a == b && listPre n h

/-- Python substring test `needle in hay` on char lists. -/
def listSub : List Char → List Char → Bool
  | n, [] => n.isEmpty
  | n, b :: h => listPre n (b :: h) || listSub n h

/-- `s.lower()` as a char list (Python lowercasing, per character). -/
def lowerData (s : String) : List Char := s.data.map Char.toLower

/-- Does a node attribute value substring-match the lowercased query?
Python checks `isinstance(value, str)` first, so numbers never match. -/
def valMatches (ql : List Char) (v : AttrVal) : Bool :=
  match v with
  | AttrVal.vstr s => listSub ql (lowerData s)
  | AttrVal.vnum _ => false

/-- The match score of `search_entities`: +2 when the lowercased query occurs
in the lowercased node id, +1 per string attribute value it occurs in. -/
def matchScore (ql : List Char) (node_id : String) (node_data : Dict) : Nat :=
  (if listSub ql (lowerData node_id) then 2 else 0)
    + (node_data.filter (fun kv => valMatches ql kv.2)).length

/-- A result row of `search_entities`. -/
structure SearchResult where
  entity_id : String
  etype : AttrVal
  score : Nat
  properties : Dict
deriving DecidableEq, Repr

/-- `KnowledgeGraph.search_entities(query, entity_type)`: score every node,
keep positive scores, sort by score descending, return the top 20. -/
def search_entities (g : KG) (query : String) (entity_type : Option String) :
    List SearchResult :=
  let ql := lowerData query
  let results := g.nodes.filterMap (fun p =>
    let keep : Bool :=
      match entity_type with
      | none => true
      | some t => dget p.2 "type" == some (AttrVal.vstr t)
    if keep then
      let score := matchScore ql p.1 p.2
      if 0 < score then
        some { entity_id := p.1, etype := (dget p.2 "type").getD (AttrVal.vstr "unknown"),
               score := score, properties := p.2 }
      else none
    else none)
  (sortLe (fun a b => b.score ≤ a.score) results).take 20

/-- `PersonalityGraph.add_personality_trait(trait_name, value, confidence,
context)`: overwrite the `trait_&lt;name&gt;` node, ensure `user_profile`
exists, and add one more `has_trait` edge. -/
def add_personality_trait (g : KG) (trait_name value : String) (confidence : ℚ)
    (context : String) (now : String) : KG :=
  let trait_id := "trait_" ++ trait_name
  let g1 := add_entity g trait_id "personality_trait"
    [("trait_name", AttrVal.vstr trait_name), ("value", AttrVal.vstr value),
     ("confidence", AttrVal.vnum confidence), ("context", AttrVal.vstr context)] now
  let g2 := add_entity g1 "user_profile" "user" [] now
  add_relationship g2 "user_profile" trait_id "has_trait"
    [("confidence", AttrVal.vnum confidence), ("discovered_at", AttrVal.vstr now)] now

/-- Python truthiness of an attribute value (the empty string and 0 are falsy). -/
def truthy : AttrVal → Bool
  | AttrVal.vstr s => s ≠ ""
  | AttrVal.vnum q => q ≠ 0

/-- One entry of the personality summary. -/
structure TraitSummary where
  value : Option AttrVal
  confidence : AttrVal
  context : AttrVal
deriving DecidableEq, Repr

/-- Summary-dict insertion; keys are the raw `trait_name` attribute values. -/
def sinsert : List (AttrVal × TraitSummary) → AttrVal → TraitSummary →
    List (AttrVal × TraitSummary)
  | [], k, v => [(k, v)]
  | (k1, v1) :: t, k, v => if k1 = k then (k, v) :: t else (k1, v1) :: sinsert t k v

/-- Summary-dict lookup. -/
def sget : List (AttrVal × TraitSummary) → AttrVal → Option TraitSummary
  | [], _ => none
  | (k1, v1) :: t, k => if k1 = k then some v1 else sget t k

/-- The summary entry built from a trait node's attributes. -/
def mkTraitSummary (d : Dict) : TraitSummary :=
  { value := dget d "value",
    confidence := (dget d "confidence").getD (AttrVal.vnum 1),
    context := (dget d "context").getD (AttrVal.vstr "") }

/-- One iteration of the `get_personality_summary` loop: nodes of type
"personality_trait" with a truthy `trait_name` are entered into the summary,
later nodes overwriting earlier ones with the same name. -/
def summaryStep (acc : List (AttrVal × TraitSummary)) (p : String × Dict) :
    List (AttrVal × TraitSummary) :=
  if dget p.2 "type" == some (AttrVal.vstr "personality_trait") then
    match dget p.2 "trait_name" with
    | some tn => if truthy tn then sinsert acc tn (mkTraitSummary p.2) else acc
    | none => acc
  else acc

/-- `PersonalityGraph.get_personality_summary()`. -/
def get_personality_summary (g : KG) : List (AttrVal × TraitSummary) :=
  g.nodes.foldl summaryStep []

/-- A record of the Chroma "conversations" collection together with its
sentence embedding.  all-MiniLM-L6-v2 embeddings are L2-normalized, so stored
and query embeddings are unit vectors and cosine distance is `1 - dot`. -/
structure ConvEntry where
  id : String
  document : String
  user_input : String
  ai_response : String
  timestamp : String
  embedding : List ℚ
deriving DecidableEq, Repr

/-- Dot product of embedding vectors. -/
def dot : List ℚ → List ℚ → ℚ
  | a :: u, b :: v => a * b + dot u v
  | _, _ => 0

/-- Squared L2 norm of an embedding vector. -/
def normSq (u : List ℚ) : ℚ := dot u u

/-- Cosine distance of unit vectors, as reported by the collection created
with metadata `hnsw:space = cosine`. -/
def cosineDist (u v : List ℚ) : ℚ := 1 - dot u v

/-- `collection.query(query_texts, n_results, ...)`: the stored entries
sorted by ascending cosine distance to the query embedding, truncated to
`n_results`. -/
def queryCollection (entries : List ConvEntry) (qEmb : List ℚ) (n : Nat) :
    List (ConvEntry × ℚ) :=
  (sortLe (fun a b => a.2 ≤ b.2)
    (entries.map (fun e => (e, cosineDist qEmb e.embedding)))).take n

/-- A result row of `search_conversations`. -/
structure ConvSearchResult where
  document : String
  user_input : String
  ai_response : String
  timestamp : String
  similarity : ℚ
deriving DecidableEq, Repr

/-- `ChromaMemoryManager.search_conversations(query, n_results)`: query the
conversations collection and report each hit with `similarity = 1 - distance`. -/
def search_conversations (entries : List ConvEntry) (qEmb : List ℚ)
    (n_results : Nat) : List ConvSearchResult :=
  (queryCollection entries qEmb n_results).map (fun p =>
    { document := p.1.document, user_input := p.1.user_input,
      ai_response := p.1.ai_response, timestamp := p.1.timestamp,
      similarity := 1 - p.2 })

/-- A conversation record as seen by `cleanup_old_data`: its id and its
parsed metadata timestamp in seconds.  `none` models a timestamp string that
`datetime.fromisoformat` fails to parse, which the collection loop skips. -/
structure StoredConv where
  id : String
  ts : Option Int
deriving DecidableEq, Repr

/-- The per-record test of the `cleanup_old_data` loop: a record is marked
for deletion when its timestamp parses and predates the cutoff. -/
def isOldConv (cutoff : Int) (c : StoredConv) : Bool :=
  match c.ts with
  | some t => decide (t < cutoff)
  | none => false

/-- The `ids_to_delete` list built by `cleanup_old_data`. -/
def ids_to_delete (convs : List StoredConv) (cutoff : Int) : List String :=
  (convs.filter (isOldConv cutoff)).map (fun c => c.id)

/-- `ChromaMemoryManager.cleanup_old_data(days)`: collect the ids of all
conversations whose parsed timestamp predates `now - days*24*60*60`, then
delete them. -/
def cleanup_old_data (convs : List StoredConv) (now : Int) (days : Int) :
    List StoredConv :=
  let cutoff := now - days * 24 * 60 * 60
  convs.filter (fun c => !((ids_to_delete convs cutoff).contains c.id))

/-- The accumulator loop of `pyWords`: split a char list on whitespace,
dropping empty fragments. -/
def wordsAux : List Char → List Char → List String
  | [], acc => if acc.isEmpty then [] else [String.mk acc.reverse]
  | c :: t, acc =>
      if c.isWhitespace then
        if acc.isEmpty then wordsAux t []
        else String.mk acc.reverse :: wordsAux t []
      else wordsAux t (c :: acc)

/-- Python `str.split()` with no argument: split on whitespace, dropping
empty fragments. -/
def pyWords (s : String) : List String := wordsAux s.data []

/-- Python `s[:n]`. -/
def pyTake (s : String) (n : Nat) : String := String.mk (s.data.take n)

/-- Case-insensitive keyword occurrence `kw.lower() in text.lower()`. -/
def kwIn (text kw : String) : Bool := listSub (lowerData kw) (lowerData text)

/-- The fixed tech keyword list of `_update_personality_insights`. -/
def tech_keywords : List String :=
  ["code", "programming", "AI", "computer", "software", "lập trình"]

/-- The fixed work keyword list of `_update_personality_insights`. -/
def work_keywords : List String :=
  ["meeting", "work", "công việc", "deadline", "project"]

/-- A single `add_personality_trait` call recorded by
`_update_personality_insights`. -/
structure TraitObs where
  trait : String
  value : String
  confidence : ℚ
  context : String
deriving DecidableEq, Repr

/-- `EnhancedMemorySystem._update_personality_insights(user_input,
ai_response)`: the sequence of `add_personality_trait` calls it performs. -/
def update_personality_insights (user_input ai_response : String) : List TraitObs :=
  let wc := (pyWords user_input).length
  (if 20 < wc then
    [{ trait := "communication_style", value := "detailed", confidence := 7/10,
       context := "Uses long messages: " ++ toString wc ++ " words" }]
  else if wc < 5 then
    [{ trait := "communication_style", value := "concise", confidence := 7/10,
       context := "Uses short messages: " ++ toString wc ++ " words" }]
  else [])
  ++ (if tech_keywords.any (fun kw => kwIn user_input kw) then
    [{ trait := "interests", value := "technology", confidence := 8/10,
       context := "Mentioned tech topics: " ++ pyTake user_input 100 }]
  else [])
  ++ (if work_keywords.any (fun kw => kwIn user_input kw) then
    [{ trait := "work_focus", value := "professional", confidence := 7/10,
       context := "Work-related discussion: " ++ pyTake user_input 100 }]
  else [])

/-- Availability flags and settings entries read by `store_conversation`:
which subsystems initialized, and whether the vector-DB add raises. -/
structure StoreEnv where
  vectorAvailable : Bool
  vectorAddFails : Bool
  kgAvailable : Bool
  pgAvailable : Bool
  auto_extract_entities : Bool
  personality_learning_enabled : Bool
  knowledge_extraction_enabled : Bool
deriving DecidableEq, Repr

/-- The joint state of the memory subsystem as touched by
`store_conversation`: the conversations collection, the knowledge collection
(documents only), and the two graphs. -/
structure MemState where
  convs : List ConvEntry
  knowledge : List String
  kg : KG
  pg : KG
deriving DecidableEq, Repr

/-- The result dict of `store_conversation`. -/
structure StoreResult where
  conversation_id : String
  processed : Bool
  timestamp : String
deriving DecidableEq, Repr

/-- `ChromaMemoryManager.add_conversation(user_input, ai_response, context)`:
append a record under a fresh uuid.  The embedding computed by the external
sentence encoder is passed in as `emb`. -/
def add_conversation (convs : List ConvEntry) (u a : String)
    (freshId now : String) (emb : List ℚ) : String × List ConvEntry :=
  (freshId,
   convs ++ [{ id := freshId, document := "User: " ++ u ++ "\nAI: " ++ a,
               user_input := u, ai_response := a, timestamp := now,
               embedding := emb }])

/-- `EnhancedMemorySystem.store_conversation(user_input, ai_response,
context)`.  The bodies of the three processing callees are abstracted as
parameters whose types confine them to the state component the Python callee
actually writes — none of them writes the conversations collection.  A `none`
result models the callee raising, which the wrapping `except` logs and skips. -/
def store_conversation (env : StoreEnv)
    (entityStep : KG → Option KG)
    (personalityStep : KG → Option KG)
    (knowledgeStep : List String → Option (List String))
    (st : MemState) (user_input ai_response : String)
    (freshId now : String) (emb : List ℚ) : StoreResult × MemState :=
  let step1 : String × MemState :=
    if env.vectorAvailable then
      if env.vectorAddFails then ("local_" ++ now, st)
      else
        let r := add_conversation st.convs user_input ai_response freshId now emb
        (r.1, { st with convs := r.2 })
    else ("local_" ++ now, st)
  let conversation_id := step1.1
  let st1 := step1.2
  let st2 :=
    if env.auto_extract_entities && env.kgAvailable then
      match entityStep st1.kg with
      | some kg2 => { st1 with kg := kg2 }
      | none => st1
    else st1
  let st3 :=
    if env.personality_learning_enabled && env.pgAvailable then
      match personalityStep st2.pg with
      | some pg2 => { st2 with pg := pg2 }
      | none => st2
    else st2
  let st4 :=
    if env.knowledge_extraction_enabled && env.kgAvailable then
      match knowledgeStep st3.knowledge with
      | some ks => { st3 with knowledge := ks }
      | none => st3
    else st3
  ({ conversation_id := conversation_id, processed := true, timestamp := now }, st4)

/-- A recorded `add_entity` call. -/
structure AddCall where
  id : String
  ty : String
  props : Dict
  now : String
deriving DecidableEq, Repr

/-- Apply a sequence of `add_entity` calls. -/
def applyAdds (g : KG) (calls : List AddCall) : KG :=
  calls.foldl (fun g c => add_entity g c.id c.ty c.props c.now) g

/-- The stored metadata count for an entity type (0 when absent). -/
def metaCount (g : KG) (ty : String) : Nat :=
  ((metaGet g.metadata ty).getD { count := 0, examples := [] }).count

/-- The number of live graph nodes whose `type` attribute equals `ty`. -/
def liveCount (g : KG) (ty : String) : Nat :=
  (g.nodes.filter (fun p => dget p.2 "type" == some (AttrVal.vstr ty))).length

theorem metaGet_metaSet (m : List (String × MetaEntry)) (k k2 : String) (v : MetaEntry) :
    metaGet (metaSet m k v) k2 = if k = k2 then some v else metaGet m k2 := by
  induction m with
  | nil => simp [metaSet, metaGet]
  | cons hd t ih =>
      obtain ⟨k1, v1⟩ := hd
      by_cases h1 : k1 = k
      · subst h1
        by_cases h2 : k1 = k2
        · subst h2
          simp [metaSet, metaGet]
        · simp [metaSet, metaGet, h2]
      · by_cases h2 : k1 = k2
        · subst h2
          have hne : ¬ k = k1 := fun h => h1 h.symm
          simp [metaSet, metaGet, h1, hne]
        · simp [metaSet, metaGet, h1, h2, ih]

theorem metaCount_add_entity (g : KG) (i ty t : String) (p : Dict) (n : String) :
    metaCount (add_entity g i ty p n) t
      = if ty = t then metaCount g t + 1 else metaCount g t := by
  unfold metaCount add_entity
  simp only [metaGet_metaSet]
  by_cases h : ty = t
  · subst h
    simp only [if_pos rfl]
    by_cases hmem : i ∈ ((metaGet g.metadata ty).getD { count := 0, examples := [] }).examples
    · simp [hmem]
    · simp [hmem]
  · simp [h]

/-- C10: every successful `add_entity` call bumps the per-type metadata
counter, re-adds of an existing id included; after the calls of a history the
counter for `t` equals its starting value plus the number of calls of type
`t`, and on the concrete two-call history re-adding the same id it strictly
exceeds the number of live nodes of that type. -/
theorem claim_C10 :
    (∀ (g : KG) (calls : List AddCall) (t : String),
        metaCount (applyAdds g calls) t
          = metaCount g t + (calls.filter (fun c => c.ty = t)).length) ∧
    liveCount (applyAdds emptyKG
        [{ id := "e", ty := "person", props := [], now := "t1" },
         { id := "e", ty := "person", props := [], now := "t2" }]) "person"
      < metaCount (applyAdds emptyKG
        [{ id := "e", ty := "person", props := [], now := "t1" },
         { id := "e", ty := "person", props := [], now := "t2" }]) "person" := by
  constructor
  · intro g calls t
    induction calls generalizing g with
    | nil => simp [applyAdds]
    | cons c rest ih =>
        have step : applyAdds g (c :: rest)
            = applyAdds (add_entity g c.id c.ty c.props c.now) rest := rfl
        rw [step, ih, metaCount_add_entity]
        by_cases h : c.ty = t
        · simp [List.filter_cons, h]
          omega
        · simp [List.filter_cons, h]
  · decide

/-- C7: running `cleanup_old_data` twice with the same cutoff leaves the
store unchanged the second time, so the remaining record count is the same
as after one run. -/
theorem claim_C7 (convs : List StoredConv) (now days : Int) :
    cleanup_old_data (cleanup_old_data convs now days) now days
        = cleanup_old_data convs now days ∧
    (cleanup_old_data (cleanup_old_data convs now days) now days).length
        = (cleanup_old_data convs now days).length := by
  have expand : ∀ cs : List StoredConv, cleanup_old_data cs now days
      = cs.filter (fun c =>
          !((ids_to_delete cs (now - days * 24 * 60 * 60)).contains c.id)) :=
    fun cs => rfl
  have key : ∀ c ∈ cleanup_old_data convs now days,
      isOldConv (now - days * 24 * 60 * 60) c = false := by
    intro c hc
    rw [expand convs] at hc
    simp only [List.mem_filter] at hc
    obtain ⟨h1, h2⟩ := hc
    by_contra hold
    have hold2 : isOldConv (now - days * 24 * 60 * 60) c = true := by
      revert hold
      cases isOldConv (now - days * 24 * 60 * 60) c <;> simp
    have hmem : c.id ∈ ids_to_delete convs (now - days * 24 * 60 * 60) := by
      unfold ids_to_delete
      exact List.mem_map_of_mem _ (List.mem_filter.mpr ⟨h1, hold2⟩)
    have hcont : (ids_to_delete convs (now - days * 24 * 60 * 60)).contains c.id = true := by
      simpa using hmem
    rw [hcont] at h2
    simp at h2
  have hids : ids_to_delete (cleanup_old_data convs now days)
      (now - days * 24 * 60 * 60) = [] := by
    unfold ids_to_delete
    have : (cleanup_old_data convs now days).filter
        (isOldConv (now - days * 24 * 60 * 60)) = [] := by
      apply List.filter_eq_nil_iff.mpr
      intro a ha
      simp [key a ha]
    rw [this, List.map_nil]
  have heq : cleanup_old_data (cleanup_old_data convs now days) now days
      = cleanup_old_data convs now days := by
    rw [expand (cleanup_old_data convs now days), hids]
    simp
  exact ⟨heq, congrArg List.length heq⟩

/-- C9: `get_relationships` raises on an entity id that is not a node of the
graph (modelled as `Except.error`), whereas `get_entity` on the same missing
id just returns nothing. -/
theorem claim_C9 :
    get_relationships (add_entity emptyKG "alice" "person" [] "t0") "bob"
        = Except.error "The node bob is not in the digraph." ∧
    get_entity (add_entity emptyKG "alice" "person" [] "t0") "bob" = none := by
  constructor <;> rfl

/-- C8: the personality-learning step records `communication_style =
detailed` (confidence 0.7) exactly when the whitespace word count exceeds
20, `concise` exactly when it is below 5 and nothing in between, `interests
= technology` (0.8) exactly when a fixed tech keyword occurs
case-insensitively, and `work_focus = professional` (0.7) exactly when a
fixed work keyword occurs. -/
theorem claim_C8 (u a : String) :
    ((∃ o ∈ update_personality_insights u a,
        o.trait = "communication_style" ∧ o.value = "detailed" ∧ o.confidence = 7/10)
      ↔ 20 < (pyWords u).length) ∧
    ((∃ o ∈ update_personality_insights u a,
        o.trait = "communication_style" ∧ o.value = "concise" ∧ o.confidence = 7/10)
      ↔ (pyWords u).length < 5) ∧
    (∀ o ∈ update_personality_insights u a, o.trait = "communication_style" →
        o.value = "detailed" ∨ o.value = "concise") ∧
    ((∃ o ∈ update_personality_insights u a,
        o.trait = "interests" ∧ o.value = "technology" ∧ o.confidence = 8/10)
      ↔ tech_keywords.any (fun kw => kwIn u kw) = true) ∧
    ((∃ o ∈ update_personality_insights u a,
        o.trait = "work_focus" ∧ o.value = "professional" ∧ o.confidence = 7/10)
      ↔ work_keywords.any (fun kw => kwIn u kw) = true) := by
  by_cases h1 : 20 < (pyWords u).length
  · have h2 : ¬ (pyWords u).length < 5 := by omega
    by_cases h3 : tech_keywords.any (fun kw => kwIn u kw) = true <;>
      by_cases h4 : work_keywords.any (fun kw => kwIn u kw) = true <;>
      simp [update_personality_insights, h1, h2, h3, h4]
  · by_cases h2 : (pyWords u).length < 5 <;>
      by_cases h3 : tech_keywords.any (fun kw => kwIn u kw) = true <;>
      by_cases h4 : work_keywords.any (fun kw => kwIn u kw) = true <;>
      simp [update_personality_insights, h1, h2, h3, h4]

theorem convs_entity_step (b : Bool) (st : MemState) (f : KG → Option KG) :
    (if b then
       match f st.kg with
       | some kg2 => { st with kg := kg2 }
       | none => st
     else st).convs = st.convs := by
  cases b
  · simp
  · cases f st.kg <;> simp

theorem convs_personality_step (b : Bool) (st : MemState) (f : KG → Option KG) :
    (if b then
       match f st.pg with
       | some pg2 => { st with pg := pg2 }
       | none => st
     else st).convs = st.convs := by
  cases b
  · simp
  · cases f st.pg <;> simp

theorem convs_knowledge_step (b : Bool) (st : MemState)
    (f : List String → Option (List String)) :
    (if b then
       match f st.knowledge with
       | some ks => { st with knowledge := ks }
       | none => st
     else st).convs = st.convs := by
  cases b
  · simp
  · cases f st.knowledge <;> simp

/-- C4: `store_conversation` always returns `processed = true`; failures of
the entity, personality and knowledge steps (or absence of their subsystems)
never affect step 1 or the stored conversation list; when the vector store
is absent or its add raises, the returned conversation id is the locally
synthesized fallback id. -/
theorem claim_C4 (env : StoreEnv)
    (entityStep personalityStep : KG → Option KG)
    (knowledgeStep : List String → Option (List String))
    (st : MemState) (u a freshId now : String) (emb : List ℚ) :
    (store_conversation env entityStep personalityStep knowledgeStep
        st u a freshId now emb).1.processed = true ∧
    (store_conversation env entityStep personalityStep knowledgeStep
        st u a freshId now emb).1.conversation_id
      = (if env.vectorAvailable && !env.vectorAddFails then freshId
         else "local_" ++ now) ∧
    (store_conversation env entityStep personalityStep knowledgeStep
        st u a freshId now emb).2.convs
      = (if env.vectorAvailable && !env.vectorAddFails then
           st.convs ++ [{ id := freshId,
                          document := "User: " ++ u ++ "\nAI: " ++ a,
                          user_input := u, ai_response := a, timestamp := now,
                          embedding := emb }]
         else st.convs) := by
  obtain ⟨va, vf, kga, pga, ae, pl, ke⟩ := env
  refine ⟨rfl, ?_, ?_⟩
  · cases va <;> cases vf <;> simp [store_conversation, add_conversation]
  · simp only [store_conversation, add_conversation]
    rw [convs_knowledge_step, convs_personality_step, convs_entity_step]
    cases va <;> cases vf <;> simp

theorem pairwise_take_sortLe {α : Type} (le : α → α → Bool)
    (htot : ∀ a b, le a b = false → le b a = true)
    (htrans : ∀ a b c, le a b = true → le b c = true → le a c = true)
    (l : List α) (n : Nat) :
    ((sortLe le l).take n).Pairwise (fun x y => le x y = true) :=
  (pairwise_sortLe le htot htrans l).sublist (List.take_sublist n _)

theorem search_entities_mem (g : KG) (query : String) (tyFilt : Option String)
    (r : SearchResult) (hr : r ∈ search_entities g query tyFilt) :
    ∃ p ∈ g.nodes,
      r = { entity_id := p.1,
            etype := (dget p.2 "type").getD (AttrVal.vstr "unknown"),
            score := matchScore (lowerData query) p.1 p.2,
            properties := p.2 } ∧
      0 < matchScore (lowerData query) p.1 p.2 := by
  simp only [search_entities] at hr
  replace hr := (List.take_sublist _ _).subset hr
  replace hr := (mem_sortLe _ _ _).mp hr
  obtain ⟨p, hp, hfp⟩ := List.mem_filterMap.mp hr
  refine ⟨p, hp, ?_⟩
  repeat' split at hfp
  all_goals first
    | exact ⟨(Option.some.inj hfp).symm, by assumption⟩
    | cases hfp

/-- C5: `search_entities` returns at most 20 results, sorted by
non-increasing score; every result is a node of the graph, its score is
exactly the +2 id-match plus +1 per matching string property value formula,
the score is positive, and hence the id or at least one string property
value contains the query case-insensitively. -/
theorem claim_C5 (g : KG) (query : String) (tyFilt : Option String) :
    (search_entities g query tyFilt).length ≤ 20 ∧
    (search_entities g query tyFilt).Pairwise (fun r1 r2 => r2.score ≤ r1.score) ∧
    ∀ r ∈ search_entities g query tyFilt,
      0 < r.score ∧
      r.score = matchScore (lowerData query) r.entity_id r.properties ∧
      (listSub (lowerData query) (lowerData r.entity_id) = true ∨
        ∃ kv ∈ r.properties, valMatches (lowerData query) kv.2 = true) ∧
      (r.entity_id, r.properties) ∈ g.nodes := by
  refine ⟨?_, ?_, ?_⟩
  · simp only [search_entities]
    exact List.length_take_le _ _
  · simp only [search_entities]
    refine (pairwise_take_sortLe _ ?_ ?_ _ 20).imp (fun h => by simpa using h)
    · intro x y hxy
      simp at hxy ⊢
      omega
    · intro x y z h1 h2
      simp at h1 h2 ⊢
      omega
  · intro r hr
    obtain ⟨p, hp, req, hsc⟩ := search_entities_mem g query tyFilt r hr
    subst req
    refine ⟨hsc, rfl, ?_, hp⟩
    by_cases hid : listSub (lowerData query) (lowerData p.1) = true
    · left
      exact hid
    · right
      have hpos : 0 < (p.2.filter (fun kv => valMatches (lowerData query) kv.2)).length := by
        unfold matchScore at hsc
        rw [if_neg hid] at hsc
        simpa using hsc
      obtain ⟨kv, hkv⟩ := List.exists_mem_of_length_pos hpos
      obtain ⟨hkv1, hkv2⟩ := List.mem_filter.mp hkv
      exact ⟨kv, hkv1, hkv2⟩

theorem any_id_addNodeNx_self (ns : List (String × Dict)) (i : String) (a : Dict) :
    (addNodeNx ns i a).any (fun p => decide (p.1 = i)) = true := by
  induction ns with
  | nil => simp [addNodeNx]
  | cons hd t ih =>
      obtain ⟨i1, d1⟩ := hd
      by_cases h1 : i1 = i
      · simp [addNodeNx, h1]
      · simp [addNodeNx, h1, ih]

theorem any_id_addNodeNx_mono (ns : List (String × Dict)) (i : String) (a : Dict)
    (j : String) (h : ns.any (fun p => decide (p.1 = j)) = true) :
    (addNodeNx ns i a).any (fun p => decide (p.1 = j)) = true := by
  induction ns with
  | nil => simp at h
  | cons hd t ih =>
      obtain ⟨i1, d1⟩ := hd
      simp only [List.any_cons, Bool.or_eq_true] at h
      by_cases h1 : i1 = i
      · simp only [addNodeNx, if_pos h1, List.any_cons, Bool.or_eq_true]
        rcases h with h | h
        · exact Or.inl h
        · exact Or.inr h
      · simp only [addNodeNx, if_neg h1, List.any_cons, Bool.or_eq_true]
        rcases h with h | h
        · exact Or.inl h
        · exact Or.inr (ih h)

theorem hasNode_add_entity_self (g : KG) (i ty : String) (p : Dict) (n : String) :
    hasNode (add_entity g i ty p n) i = true := by
  unfold hasNode add_entity
  exact any_id_addNodeNx_self _ _ _

theorem hasNode_add_entity_mono (g : KG) (i ty : String) (p : Dict) (n j : String)
    (h : hasNode g j = true) : hasNode (add_entity g i ty p n) j = true := by
  unfold hasNode add_entity
  unfold hasNode at h
  exact any_id_addNodeNx_mono _ _ _ _ h

theorem hasNode_addEdgeNx_mono (g : KG) (s t : String) (a : Dict) (j : String)
    (h : hasNode g j = true) : hasNode (addEdgeNx g s t a) j = true := by
  simp only [hasNode, addEdgeNx] at h ⊢
  repeat' split
  all_goals simp_all [List.any_append]

theorem hasNode_addEdgeNx_left (g : KG) (s t : String) (a : Dict) :
    hasNode (addEdgeNx g s t a) s = true := by
  simp only [hasNode, addEdgeNx]
  repeat' split
  all_goals simp_all [List.any_append]

theorem hasNode_addEdgeNx_right (g : KG) (s t : String) (a : Dict) :
    hasNode (addEdgeNx g s t a) t = true := by
  simp only [hasNode, addEdgeNx]
  repeat' split
  all_goals simp_all [List.any_append]

theorem hasNode_add_relationship_mono (g : KG) (s t rt : String) (p : Dict)
    (n j : String) (h : hasNode g j = true) :
    hasNode (add_relationship g s t rt p n) j = true := by
  unfold add_relationship
  apply hasNode_addEdgeNx_mono
  by_cases h1 : hasNode g s = true
  · rw [if_pos h1]
    by_cases h2 : hasNode g t = true
    · rw [if_pos h2]
      exact h
    · rw [if_neg h2]
      exact hasNode_add_entity_mono _ _ _ _ _ _ h
  · rw [if_neg h1]
    by_cases h2 : hasNode (add_entity g s "unknown" [] n) t = true
    · rw [if_pos h2]
      exact hasNode_add_entity_mono _ _ _ _ _ _ h
    · rw [if_neg h2]
      exact hasNode_add_entity_mono _ _ _ _ _ _
        (hasNode_add_entity_mono _ _ _ _ _ _ h)

theorem hasNode_add_relationship_left (g : KG) (s t rt : String) (p : Dict)
    (n : String) : hasNode (add_relationship g s t rt p n) s = true := by
  unfold add_relationship
  exact hasNode_addEdgeNx_left _ _ _ _

theorem hasNode_add_relationship_right (g : KG) (s t rt : String) (p : Dict)
    (n : String) : hasNode (add_relationship g s t rt p n) t = true := by
  unfold add_relationship
  exact hasNode_addEdgeNx_right _ _ _ _

theorem edges_add_relationship (g : KG) (s t rt : String) (p : Dict) (n : String) :
    (add_relationship g s t rt p n).edges
      = g.edges ++ [(s, t, dupdate [("type", AttrVal.vstr rt),
          ("created_at", AttrVal.vstr n), ("weight", AttrVal.vnum 1)] p)] := by
  simp only [add_relationship, addEdgeNx]
  repeat' split
  all_goals rfl

/-- The graph invariant: both endpoints of every edge are nodes. -/
def edgesClosed (g : KG) : Prop :=
  ∀ e ∈ g.edges, hasNode g e.1 = true ∧ hasNode g e.2.1 = true

/-- A mutating public operation of the knowledge/personality graph API. -/
inductive KGOp where
  | entity (id ty : String) (props : Dict) (now : String)
  | relationship (source target rtype : String) (props : Dict) (now : String)
  | trait (name value : String) (confidence : ℚ) (context now : String)

/-- Apply one public operation. -/
def applyOp (g : KG) : KGOp → KG
  | KGOp.entity i ty p n => add_entity g i ty p n
  | KGOp.relationship s t ty p n => add_relationship g s t ty p n
  | KGOp.trait nm v c ctx n => add_personality_trait g nm v c ctx n

/-- Apply a sequence of public operations. -/
def applyOps (g : KG) (ops : List KGOp) : KG := ops.foldl applyOp g

theorem edgesClosed_add_entity (g : KG) (i ty : String) (p : Dict) (n : String)
    (h : edgesClosed g) : edgesClosed (add_entity g i ty p n) := by
  intro e he
  obtain ⟨h1, h2⟩ := h e he
  exact ⟨hasNode_add_entity_mono _ _ _ _ _ _ h1, hasNode_add_entity_mono _ _ _ _ _ _ h2⟩

theorem edgesClosed_add_relationship (g : KG) (s t rt : String) (p : Dict)
    (n : String) (h : edgesClosed g) :
    edgesClosed (add_relationship g s t rt p n) := by
  intro e he
  rw [edges_add_relationship] at he
  rcases List.mem_append.mp he with he | he
  · obtain ⟨h1, h2⟩ := h e he
    exact ⟨hasNode_add_relationship_mono _ _ _ _ _ _ _ h1,
           hasNode_add_relationship_mono _ _ _ _ _ _ _ h2⟩
  · have he2 : e = (s, t, dupdate [("type", AttrVal.vstr rt),
        ("created_at", AttrVal.vstr n), ("weight", AttrVal.vnum 1)] p) := by
      simpa using he
    subst he2
    exact ⟨hasNode_add_relationship_left _ _ _ _ _ _,
           hasNode_add_relationship_right _ _ _ _ _ _⟩

theorem edgesClosed_add_personality_trait (g : KG) (nm v : String) (c : ℚ)
    (ctx n : String) (h : edgesClosed g) :
    edgesClosed (add_personality_trait g nm v c ctx n) := by
  unfold add_personality_trait
  exact edgesClosed_add_relationship _ _ _ _ _ _
    (edgesClosed_add_entity _ _ _ _ _ (edgesClosed_add_entity _ _ _ _ _ h))

theorem edgesClosed_applyOps (g : KG) (ops : List KGOp) (h : edgesClosed g) :
    edgesClosed (applyOps g ops) := by
  induction ops generalizing g with
  | nil => exact h
  | cons op rest ih =>
      have step : applyOps g (op :: rest) = applyOps (applyOp g op) rest := rfl
      rw [step]
      apply ih
      cases op with
      | entity i ty p n => exact edgesClosed_add_entity _ _ _ _ _ h
      | relationship s t ty p n => exact edgesClosed_add_relationship _ _ _ _ _ _ h
      | trait nm v c ctx n => exact edgesClosed_add_personality_trait _ _ _ _ _ _ h

theorem nodeAttrs_addNodeNx_self (ns : List (String × Dict)) (i : String) (a : Dict) :
    nodeAttrs (addNodeNx ns i a) i
      = some (match nodeAttrs ns i with
              | none => a
              | some d => dupdate d a) := by
  induction ns with
  | nil => simp [addNodeNx, nodeAttrs]
  | cons hd t ih =>
      obtain ⟨i1, d1⟩ := hd
      by_cases h1 : i1 = i
      · subst h1
        simp [addNodeNx, nodeAttrs]
      · simp [addNodeNx, nodeAttrs, h1, ih]

theorem nodeAttrs_addNodeNx_ne (ns : List (String × Dict)) (i j : String) (a : Dict)
    (h : i ≠ j) : nodeAttrs (addNodeNx ns i a) j = nodeAttrs ns j := by
  induction ns with
  | nil => simp [addNodeNx, nodeAttrs, h]
  | cons hd t ih =>
      obtain ⟨i1, d1⟩ := hd
      by_cases h1 : i1 = i
      · subst h1
        simp [addNodeNx, nodeAttrs, h]
      · simp [addNodeNx, nodeAttrs, h1, ih]

theorem any_false_nodeAttrs (ns : List (String × Dict)) (i : String)
    (h : (ns.any fun p => decide (p.1 = i)) = false) : nodeAttrs ns i = none := by
  induction ns with
  | nil => rfl
  | cons hd t ih =>
      obtain ⟨i1, d1⟩ := hd
      simp only [List.any_cons, Bool.or_eq_false_iff, decide_eq_false_iff_not] at h
      obtain ⟨h1, h2⟩ := h
      simp [nodeAttrs, h1, ih h2]

theorem get_entity_add_entity_new (g : KG) (i ty : String) (p : Dict) (n : String)
    (h : hasNode g i = false) :
    get_entity (add_entity g i ty p n) i
      = some (dupdate [("type", AttrVal.vstr ty), ("created_at", AttrVal.vstr n),
                       ("updated_at", AttrVal.vstr n)] p) := by
  unfold hasNode at h
  unfold get_entity add_entity
  rw [nodeAttrs_addNodeNx_self, any_false_nodeAttrs g.nodes i h]

theorem get_entity_add_entity_existing (g : KG) (i ty : String) (p : Dict)
    (n : String) (d : Dict) (h : get_entity g i = some d) :
    get_entity (add_entity g i ty p n) i
      = some (dupdate d (dupdate [("type", AttrVal.vstr ty),
          ("created_at", AttrVal.vstr n), ("updated_at", AttrVal.vstr n)] p)) := by
  unfold get_entity at h
  unfold get_entity add_entity
  rw [nodeAttrs_addNodeNx_self, h]

theorem get_entity_add_entity_ne (g : KG) (i ty : String) (p : Dict) (n j : String)
    (h : i ≠ j) : get_entity (add_entity g i ty p n) j = get_entity g j := by
  unfold get_entity add_entity
  exact nodeAttrs_addNodeNx_ne _ _ _ _ h

theorem nodes_addEdgeNx_of_has (g : KG) (s t : String) (a : Dict)
    (hs : hasNode g s = true) (ht : hasNode g t = true) :
    (addEdgeNx g s t a).nodes = g.nodes := by
  unfold hasNode at hs ht
  simp [addEdgeNx, hs, ht]

theorem get_entity_addEdgeNx_of_has (g : KG) (s t : String) (a : Dict) (j : String)
    (hs : hasNode g s = true) (ht : hasNode g t = true) :
    get_entity (addEdgeNx g s t a) j = get_entity g j := by
  unfold get_entity
  rw [nodes_addEdgeNx_of_has g s t a hs ht]

theorem any_id_addNodeNx_iff (ns : List (String × Dict)) (i : String) (a : Dict)
    (j : String) :
    ((addNodeNx ns i a).any fun p => decide (p.1 = j)) = true ↔
      ((ns.any fun p => decide (p.1 = j)) = true ∨ j = i) := by
  induction ns with
  | nil => simp [addNodeNx, eq_comm]
  | cons hd t ih =>
      obtain ⟨i1, d1⟩ := hd
      by_cases h1 : i1 = i
      · subst h1
        simp only [addNodeNx, eq_self_iff_true, if_true, List.any_cons,
          Bool.or_eq_true, decide_eq_true_eq]
        constructor
        · intro h
          exact Or.inl h
        · intro h
          rcases h with h | h
          · exact h
          · exact Or.inl h.symm
      · simp only [addNodeNx, if_neg h1, List.any_cons, Bool.or_eq_true,
          decide_eq_true_eq, ih]
        tauto

theorem hasNode_add_entity_iff (g : KG) (i ty : String) (p : Dict) (n j : String) :
    hasNode (add_entity g i ty p n) j = true ↔ (hasNode g j = true ∨ j = i) := by
  unfold hasNode add_entity
  exact any_id_addNodeNx_iff _ _ _ _

/-- C6: after `add_relationship`, both endpoints exist as nodes, a missing
endpoint having been auto-created with type "unknown"; consequently the
closed-edges invariant holds in every state reachable by the public mutating
operations. -/
theorem claim_C6 :
    (∀ (g : KG) (source target rtype : String) (props : Dict) (now : String),
      hasNode (add_relationship g source target rtype props now) source = true ∧
      hasNode (add_relationship g source target rtype props now) target = true ∧
      (hasNode g source = false →
        ∃ d, get_entity (add_relationship g source target rtype props now) source
              = some d ∧
          dget d "type" = some (AttrVal.vstr "unknown")) ∧
      (hasNode g target = false →
        ∃ d, get_entity (add_relationship g source target rtype props now) target
              = some d ∧
          dget d "type" = some (AttrVal.vstr "unknown"))) ∧
    (∀ (g : KG) (ops : List KGOp), edgesClosed g → edgesClosed (applyOps g ops)) := by
  constructor
  · intro g source target rtype props now
    refine ⟨hasNode_add_relationship_left _ _ _ _ _ _,
            hasNode_add_relationship_right _ _ _ _ _ _, ?_, ?_⟩
    · intro hsf
      by_cases ht : hasNode (add_entity g source "unknown" [] now) target = true
      · simp only [add_relationship, hsf, Bool.false_eq_true, if_false, ht,
          if_true]
        rw [get_entity_addEdgeNx_of_has _ _ _ _ _
          (hasNode_add_entity_self _ _ _ _ _) ht]
        exact ⟨_, get_entity_add_entity_new g source "unknown" [] now hsf, rfl⟩
      · have ht2 : hasNode (add_entity g source "unknown" [] now) target = false := by
          cases hv : hasNode (add_entity g source "unknown" [] now) target
          · rfl
          · exact absurd hv ht
        have hts : target ≠ source := by
          intro hh
          subst hh
          exact ht (hasNode_add_entity_self _ _ _ _ _)
        simp only [add_relationship, hsf, ht2, Bool.false_eq_true, if_false]
        rw [get_entity_addEdgeNx_of_has _ _ _ _ _
          (hasNode_add_entity_mono _ _ _ _ _ _ (hasNode_add_entity_self _ _ _ _ _))
          (hasNode_add_entity_self _ _ _ _ _)]
        rw [get_entity_add_entity_ne _ _ _ _ _ _ hts]
        exact ⟨_, get_entity_add_entity_new g source "unknown" [] now hsf, rfl⟩
    · intro htf
      by_cases hs : hasNode g source = true
      · simp only [add_relationship, hs, eq_self_iff_true, if_true, htf,
          Bool.false_eq_true, if_false]
        rw [get_entity_addEdgeNx_of_has _ _ _ _ _
          (hasNode_add_entity_mono _ _ _ _ _ _ hs)
          (hasNode_add_entity_self _ _ _ _ _)]
        exact ⟨_, get_entity_add_entity_new g target "unknown" [] now htf, rfl⟩
      · have hsf2 : hasNode g source = false := by
          cases hv : hasNode g source
          · rfl
          · exact absurd hv hs
        by_cases hts : target = source
        · subst hts
          simp only [add_relationship, hsf2, Bool.false_eq_true, if_false,
            hasNode_add_entity_self, if_true]
          rw [get_entity_addEdgeNx_of_has _ _ _ _ _
            (hasNode_add_entity_self _ _ _ _ _)
            (hasNode_add_entity_self _ _ _ _ _)]
          exact ⟨_, get_entity_add_entity_new g target "unknown" [] now htf, rfl⟩
        · have h1f : hasNode (add_entity g source "unknown" [] now) target = false := by
            cases hv : hasNode (add_entity g source "unknown" [] now) target
            · rfl
            · rcases (hasNode_add_entity_iff g source "unknown" [] now target).mp hv
                with h | h
              · rw [h] at htf
                cases htf
              · exact absurd h hts
          simp only [add_relationship, hsf2, h1f, Bool.false_eq_true, if_false]
          rw [get_entity_addEdgeNx_of_has _ _ _ _ _
            (hasNode_add_entity_mono _ _ _ _ _ _ (hasNode_add_entity_self _ _ _ _ _))
            (hasNode_add_entity_self _ _ _ _ _)]
          exact ⟨_, get_entity_add_entity_new _ target "unknown" [] now h1f, rfl⟩
  · exact fun g ops h => edgesClosed_applyOps g ops h

theorem claim_C6_witness :
    hasNode (add_relationship emptyKG "a" "b" "knows" [] "t0") "a" = true ∧
    hasNode (add_relationship emptyKG "a" "b" "knows" [] "t0") "b" = true ∧
    (∃ d, get_entity (add_relationship emptyKG "a" "b" "knows" [] "t0") "a" = some d ∧
      dget d "type" = some (AttrVal.vstr "unknown")) ∧
    (∃ d, get_entity (add_relationship emptyKG "a" "b" "knows" [] "t0") "b" = some d ∧
      dget d "type" = some (AttrVal.vstr "unknown")) ∧
    edgesClosed (applyOps emptyKG
      [KGOp.entity "x" "person" [] "t1",
       KGOp.relationship "x" "y" "knows" [] "t2",
       KGOp.trait "interests" "technology" (8/10) "ctx" "t3"]) := by
  obtain ⟨ha, hb, hsrc, htgt⟩ := claim_C6.1 emptyKG "a" "b" "knows" [] "t0"
  exact ⟨ha, hb, hsrc rfl, htgt rfl,
    claim_C6.2 emptyKG _ (fun e he => absurd he (List.not_mem_nil e))⟩

/-- The attribute bindings every `add_entity` call makes before applying the
caller's properties. -/
def baseAttrs (ty n : String) : Dict :=
  [("type", AttrVal.vstr ty), ("created_at", AttrVal.vstr n),
   ("updated_at", AttrVal.vstr n)]

/-- Rightmost-biased lookup over a list of props dicts: the last dict binding
the key wins (override-merge across calls). -/
def mergeLookup : List Dict → String → Option AttrVal
  | [], _ => none
  | d :: t, k => oOr (mergeLookup t k) (dlast d k)

/-- The last element of a call list. -/
def lastCall : List AddCall → Option AddCall
  | [] => none
  | [c] => some c
  | _ :: t => lastCall t

/-- A dict has no duplicate keys. -/
def keysNodup (d : Dict) : Prop := (d.map Prod.fst).Nodup

theorem oOr_none_right (a : Option AttrVal) : oOr a none = a := by
  cases a <;> rfl

theorem dlast_none_of_not_mem (d : Dict) (k : String)
    (h : ∀ kv ∈ d, kv.1 ≠ k) : dlast d k = none := by
  induction d with
  | nil => rfl
  | cons hd t ih =>
      have hh := h hd (List.mem_cons_self _ _)
      have ht := ih (fun kv hkv => h kv (List.mem_cons_of_mem _ hkv))
      obtain ⟨k1, v1⟩ := hd
      simp only [dlast, ht]
      rw [if_neg hh]

theorem dget_none_of_not_mem_keys (d : Dict) (k : String)
    (h : k ∉ d.map Prod.fst) : dget d k = none := by
  induction d with
  | nil => rfl
  | cons hd t ih =>
      obtain ⟨k1, v1⟩ := hd
      simp only [List.map_cons, List.mem_cons] at h
      push_neg at h
      obtain ⟨h1, h2⟩ := h
      simp only [dget]
      rw [if_neg (fun hh => h1 hh.symm)]
      exact ih h2

theorem keys_dinsert (d : Dict) (k : String) (v : AttrVal) :
    (dinsert d k v).map Prod.fst
      = if k ∈ d.map Prod.fst then d.map Prod.fst
        else d.map Prod.fst ++ [k] := by
  induction d with
  | nil => simp [dinsert]
  | cons hd t ih =>
      obtain ⟨k1, v1⟩ := hd
      by_cases h1 : k1 = k
      · subst h1
        simp [dinsert]
      · have hne : ¬ k = k1 := fun hh => h1 hh.symm
        by_cases h2 : k ∈ t.map Prod.fst
        · simp [dinsert, h1, ih, h2, hne]
        · simp [dinsert, h1, ih, h2, hne]

theorem keysNodup_dinsert (d : Dict) (k : String) (v : AttrVal)
    (h : keysNodup d) : keysNodup (dinsert d k v) := by
  unfold keysNodup at *
  rw [keys_dinsert]
  by_cases h2 : k ∈ d.map Prod.fst
  · simp [h2, h]
  · simp [h2, List.nodup_append, h]

theorem keysNodup_dupdate (d u : Dict) (h : keysNodup d) :
    keysNodup (dupdate d u) := by
  induction u generalizing d with
  | nil => exact h
  | cons hd t ih =>
      have step : dupdate d (hd :: t) = dupdate (dinsert d hd.1 hd.2) t := rfl
      rw [step]
      exact ih _ (keysNodup_dinsert d hd.1 hd.2 h)

theorem keysNodup_baseAttrs (ty n : String) : keysNodup (baseAttrs ty n) := by
  unfold keysNodup baseAttrs
  simp

theorem dlast_eq_dget_of_nodup (d : Dict) (h : keysNodup d) (k : String) :
    dlast d k = dget d k := by
  induction d with
  | nil => rfl
  | cons hd t ih =>
      obtain ⟨k1, v1⟩ := hd
      unfold keysNodup at h
      simp only [List.map_cons, List.nodup_cons] at h
      obtain ⟨h1, h2⟩ := h
      by_cases hk : k1 = k
      · subst hk
        have htl : dlast t k1 = none := by
          rw [ih h2, dget_none_of_not_mem_keys t k1 h1]
        simp [dlast, dget, htl]
      · simp only [dlast, dget, ih h2]
        cases dget t k with
        | none => simp [hk]
        | some w => simp [hk]

theorem dget_new_call (p : Dict) (ty n k : String)
    (hp : ∀ kv ∈ p, kv.1 ≠ "type" ∧ kv.1 ≠ "created_at" ∧ kv.1 ≠ "updated_at") :
    dget (dupdate (baseAttrs ty n) p) k
      = if k = "type" then some (AttrVal.vstr ty)
        else if k = "updated_at" then some (AttrVal.vstr n)
        else if k = "created_at" then oOr (dlast p k) (some (AttrVal.vstr n))
        else dlast p k := by
  rw [dget_dupdate]
  by_cases h1 : k = "type"
  · subst h1
    rw [dlast_none_of_not_mem p "type" (fun kv hkv => (hp kv hkv).1)]
    simp [oOr, baseAttrs, dget]
  · by_cases h2 : k = "updated_at"
    · subst h2
      rw [dlast_none_of_not_mem p "updated_at" (fun kv hkv => (hp kv hkv).2.2)]
      simp [oOr, baseAttrs, dget]
    · by_cases h3 : k = "created_at"
      · subst h3
        have hb : dget (baseAttrs ty n) "created_at" = some (AttrVal.vstr n) := rfl
        rw [hb]
        simp [h1, h2]
      · have hb : dget (baseAttrs ty n) k = none := by
          apply dget_none_of_not_mem_keys
          simp [baseAttrs, h1, h2, h3]
        rw [hb, oOr_none_right]
        simp [h1, h2, h3]

theorem dget_update_call (d p : Dict) (ty n k : String)
    (hp : ∀ kv ∈ p, kv.1 ≠ "type" ∧ kv.1 ≠ "created_at" ∧ kv.1 ≠ "updated_at") :
    dget (dupdate d (dupdate (baseAttrs ty n) p)) k
      = if k = "type" then some (AttrVal.vstr ty)
        else if k = "updated_at" then some (AttrVal.vstr n)
        else if k = "created_at" then oOr (dlast p k) (some (AttrVal.vstr n))
        else oOr (dlast p k) (dget d k) := by
  rw [dget_dupdate,
    dlast_eq_dget_of_nodup _ (keysNodup_dupdate _ _ (keysNodup_baseAttrs ty n)) k,
    dget_new_call p ty n k hp]
  by_cases h1 : k = "type"
  · subst h1
    simp [oOr]
  · by_cases h2 : k = "updated_at"
    · subst h2
      simp [h1, oOr]
    · by_cases h3 : k = "created_at"
      · subst h3
        simp only [h1, h2, if_neg, if_false, eq_self_iff_true, if_true]
        cases dlast p "created_at" <;> simp [oOr]
      · rw [if_neg h1, if_neg h2, if_neg h3, if_neg h1, if_neg h2, if_neg h3]

theorem countId_eq_zero (ns : List (String × Dict)) (i : String)
    (h : (ns.any fun p => decide (p.1 = i)) = false) : countId ns i = 0 := by
  induction ns with
  | nil => rfl
  | cons hd t ih =>
      obtain ⟨i1, d1⟩ := hd
      simp only [List.any_cons, Bool.or_eq_false_iff, decide_eq_false_iff_not] at h
      obtain ⟨h1, h2⟩ := h
      unfold countId at *
      simp only [List.filter_cons]
      rw [if_neg (by simp [h1])]
      exact ih h2

theorem countId_addNodeNx (ns : List (String × Dict)) (i : String) (a : Dict) :
    countId (addNodeNx ns i a) i = if countId ns i = 0 then 1 else countId ns i := by
  induction ns with
  | nil => simp [addNodeNx, countId]
  | cons hd t ih =>
      obtain ⟨i1, d1⟩ := hd
      by_cases h1 : i1 = i
      · subst h1
        rw [show addNodeNx ((i1, d1) :: t) i1 a = (i1, dupdate d1 a) :: t by
          simp [addNodeNx]]
        unfold countId
        simp [List.filter_cons]
      · have hcons : countId ((i1, d1) :: t) i = countId t i := by
          unfold countId
          simp only [List.filter_cons]
          rw [if_neg (by simp [h1])]
        rw [show addNodeNx ((i1, d1) :: t) i a = (i1, d1) :: addNodeNx t i a by
          simp [addNodeNx, h1]]
        have hcons2 : countId ((i1, d1) :: addNodeNx t i a) i
            = countId (addNodeNx t i a) i := by
          unfold countId
          simp only [List.filter_cons]
          rw [if_neg (by simp [h1])]
        rw [hcons2, hcons]
        exact ih

theorem countId_add_entity_self (g : KG) (i ty : String) (p : Dict) (n : String)
    (h : countId g.nodes i = 1) :
    countId (add_entity g i ty p n).nodes i = 1 := by
  show countId (addNodeNx g.nodes i _) i = 1
  rw [countId_addNodeNx, h]
  rfl

theorem lastCall_cons_some (c : AddCall) (l : List AddCall) :
    ∃ x, lastCall (c :: l) = some x := by
  induction l generalizing c with
  | nil => exact ⟨c, rfl⟩
  | cons c2 t ih => exact ih c2

theorem applyAdds_get (id : String) (calls : List AddCall) (g : KG) (d : Dict)
    (hall : ∀ c ∈ calls, c.id = id)
    (hres : ∀ c ∈ calls, ∀ kv ∈ c.props,
        kv.1 ≠ "type" ∧ kv.1 ≠ "created_at" ∧ kv.1 ≠ "updated_at")
    (hd : get_entity g id = some d)
    (hcount : countId g.nodes id = 1) :
    ∃ d2, get_entity (applyAdds g calls) id = some d2 ∧
      countId (applyAdds g calls).nodes id = 1 ∧
      dget d2 "type" = (match lastCall calls with
        | some c => some (AttrVal.vstr c.ty)
        | none => dget d "type") ∧
      dget d2 "updated_at" = (match lastCall calls with
        | some c => some (AttrVal.vstr c.now)
        | none => dget d "updated_at") ∧
      (∀ k, k ≠ "type" → k ≠ "created_at" → k ≠ "updated_at" →
        dget d2 k = oOr (mergeLookup (calls.map (fun c => c.props)) k) (dget d k)) := by
  induction calls generalizing g d with
  | nil =>
      refine ⟨d, hd, hcount, rfl, rfl, ?_⟩
      intro k _ _ _
      rfl
  | cons c rest ih =>
      have hc_id : c.id = id := hall c (List.mem_cons_self _ _)
      have step : applyAdds g (c :: rest)
          = applyAdds (add_entity g c.id c.ty c.props c.now) rest := rfl
      rw [step, hc_id]
      have hpc : ∀ kv ∈ c.props,
          kv.1 ≠ "type" ∧ kv.1 ≠ "created_at" ∧ kv.1 ≠ "updated_at" :=
        hres c (List.mem_cons_self _ _)
      have hd1 : get_entity (add_entity g id c.ty c.props c.now) id
          = some (dupdate d (dupdate (baseAttrs c.ty c.now) c.props)) :=
        get_entity_add_entity_existing g id c.ty c.props c.now d hd
      have hc1 : countId (add_entity g id c.ty c.props c.now).nodes id = 1 :=
        countId_add_entity_self g id c.ty c.props c.now hcount
      obtain ⟨d2, h1, h2, h3, h4, h5⟩ := ih (add_entity g id c.ty c.props c.now)
        (dupdate d (dupdate (baseAttrs c.ty c.now) c.props))
        (fun x hx => hall x (List.mem_cons_of_mem _ hx))
        (fun x hx => hres x (List.mem_cons_of_mem _ hx)) hd1 hc1
      refine ⟨d2, h1, h2, ?_, ?_, ?_⟩
      · cases rest with
        | nil =>
            have h3b : dget d2 "type"
                = dget (dupdate d (dupdate (baseAttrs c.ty c.now) c.props)) "type" := h3
            rw [h3b, dget_update_call _ _ _ _ _ hpc]
            rfl
        | cons c2 rest2 =>
            obtain ⟨x, hx⟩ := lastCall_cons_some c2 rest2
            have hl : lastCall (c :: c2 :: rest2) = lastCall (c2 :: rest2) := rfl
            rw [hl, hx]
            rw [hx] at h3
            exact h3
      · cases rest with
        | nil =>
            have h4b : dget d2 "updated_at"
                = dget (dupdate d (dupdate (baseAttrs c.ty c.now) c.props)) "updated_at" := h4
            rw [h4b, dget_update_call _ _ _ _ _ hpc]
            rfl
        | cons c2 rest2 =>
            obtain ⟨x, hx⟩ := lastCall_cons_some c2 rest2
            have hl : lastCall (c :: c2 :: rest2) = lastCall (c2 :: rest2) := rfl
            rw [hl, hx]
            rw [hx] at h4
            exact h4
      · intro k hk1 hk2 hk3
        rw [h5 k hk1 hk2 hk3, dget_update_call _ _ _ _ _ hpc,
          if_neg hk1, if_neg hk3, if_neg hk2]
        exact (oOr_assoc _ _ _).symm

/-- C3 (counterexample): a props dict may override the reserved attribute
keys.  Passing `type` in props makes the stored type differ from the type
argument of the last call; passing `updated_at` defeats the refresh; and a
`created_at` binding from an earlier call is clobbered by the next call's
fresh timestamp rather than override-merged. -/
theorem claim_C3_counterexample :
    ((get_entity (add_entity emptyKG "e" "A" [("type", AttrVal.vstr "B")] "t1")
        "e").bind (fun d => dget d "type") = some (AttrVal.vstr "B") ∧
      AttrVal.vstr "B" ≠ AttrVal.vstr "A") ∧
    ((get_entity (add_entity (add_entity emptyKG "e" "A" [] "t1") "e" "A"
        [("updated_at", AttrVal.vstr "t0")] "t2") "e").bind
          (fun d => dget d "updated_at") = some (AttrVal.vstr "t0") ∧
      AttrVal.vstr "t0" ≠ AttrVal.vstr "t2") ∧
    ((get_entity (add_entity (add_entity emptyKG "e" "A"
        [("created_at", AttrVal.vstr "1999")] "t1") "e" "A" [] "t2") "e").bind
          (fun d => dget d "created_at") = some (AttrVal.vstr "t2") ∧
      mergeLookup [[("created_at", AttrVal.vstr "1999")], []] "created_at"
        = some (AttrVal.vstr "1999") ∧
      AttrVal.vstr "t2" ≠ AttrVal.vstr "1999") := by
  decide

/-- C3 (amended): for any nonempty sequence of `add_entity` calls with a
common id, starting from a graph without that id, and whose props never bind
the reserved keys `type`, `created_at`, `updated_at`: the graph holds exactly
one node with the id, its type is the last call's type, `updated_at` is the
last call's timestamp, and every non-reserved key carries the override-merge
of all props (later calls win per key). -/
theorem claim_C3_amended (id : String) (calls : List AddCall) (g0 : KG)
    (cl : AddCall)
    (hlast : lastCall calls = some cl)
    (hall : ∀ c ∈ calls, c.id = id)
    (hres : ∀ c ∈ calls, ∀ kv ∈ c.props,
        kv.1 ≠ "type" ∧ kv.1 ≠ "created_at" ∧ kv.1 ≠ "updated_at")
    (h0 : hasNode g0 id = false) :
    ∃ d, get_entity (applyAdds g0 calls) id = some d ∧
      countId (applyAdds g0 calls).nodes id = 1 ∧
      dget d "type" = some (AttrVal.vstr cl.ty) ∧
      dget d "updated_at" = some (AttrVal.vstr cl.now) ∧
      ∀ k, k ≠ "type" → k ≠ "created_at" → k ≠ "updated_at" →
        dget d k = mergeLookup (calls.map (fun c => c.props)) k := by
  cases calls with
  | nil => cases hlast
  | cons c rest =>
      have hc_id : c.id = id := hall c (List.mem_cons_self _ _)
      have step : applyAdds g0 (c :: rest)
          = applyAdds (add_entity g0 c.id c.ty c.props c.now) rest := rfl
      rw [step, hc_id]
      have hpc := hres c (List.mem_cons_self _ _)
      have hd1 : get_entity (add_entity g0 id c.ty c.props c.now) id
          = some (dupdate (baseAttrs c.ty c.now) c.props) :=
        get_entity_add_entity_new g0 id c.ty c.props c.now h0
      have hc1 : countId (add_entity g0 id c.ty c.props c.now).nodes id = 1 := by
        show countId (addNodeNx g0.nodes id _) id = 1
        rw [countId_addNodeNx, countId_eq_zero g0.nodes id h0]
        rfl
      obtain ⟨d2, h1, h2, h3, h4, h5⟩ := applyAdds_get id rest
        (add_entity g0 id c.ty c.props c.now)
        (dupdate (baseAttrs c.ty c.now) c.props)
        (fun x hx => hall x (List.mem_cons_of_mem _ hx))
        (fun x hx => hres x (List.mem_cons_of_mem _ hx)) hd1 hc1
      refine ⟨d2, h1, h2, ?_, ?_, ?_⟩
      · cases rest with
        | nil =>
            have hcl : cl = c := (Option.some.inj hlast).symm
            subst hcl
            have h3b : dget d2 "type"
                = dget (dupdate (baseAttrs cl.ty cl.now) cl.props) "type" := h3
            rw [h3b, dget_new_call _ _ _ _ hpc]
            rfl
        | cons c2 rest2 =>
            have hl : lastCall (c :: c2 :: rest2) = lastCall (c2 :: rest2) := rfl
            rw [hl] at hlast
            rw [hlast] at h3
            exact h3
      · cases rest with
        | nil =>
            have hcl : cl = c := (Option.some.inj hlast).symm
            subst hcl
            have h4b : dget d2 "updated_at"
                = dget (dupdate (baseAttrs cl.ty cl.now) cl.props) "updated_at" := h4
            rw [h4b, dget_new_call _ _ _ _ hpc]
            rfl
        | cons c2 rest2 =>
            have hl : lastCall (c :: c2 :: rest2) = lastCall (c2 :: rest2) := rfl
            rw [hl] at hlast
            rw [hlast] at h4
            exact h4
      · intro k hk1 hk2 hk3
        rw [h5 k hk1 hk2 hk3, dget_new_call _ _ _ _ hpc,
          if_neg hk1, if_neg hk3, if_neg hk2]
        rfl

theorem claim_C3_witness :
    ∃ d, get_entity (applyAdds emptyKG
        [{ id := "e", ty := "person", props := [("name", AttrVal.vstr "Alice")],
           now := "t1" },
         { id := "e", ty := "robot", props := [("age", AttrVal.vnum 5)],
           now := "t2" }]) "e" = some d ∧
      countId (applyAdds emptyKG
        [{ id := "e", ty := "person", props := [("name", AttrVal.vstr "Alice")],
           now := "t1" },
         { id := "e", ty := "robot", props := [("age", AttrVal.vnum 5)],
           now := "t2" }]).nodes "e" = 1 ∧
      dget d "type" = some (AttrVal.vstr "robot") ∧
      dget d "updated_at" = some (AttrVal.vstr "t2") ∧
      ∀ k, k ≠ "type" → k ≠ "created_at" → k ≠ "updated_at" →
        dget d k = mergeLookup [[("name", AttrVal.vstr "Alice")],
          [("age", AttrVal.vnum 5)]] k :=
  claim_C3_amended "e"
    [{ id := "e", ty := "person", props := [("name", AttrVal.vstr "Alice")],
       now := "t1" },
     { id := "e", ty := "robot", props := [("age", AttrVal.vnum 5)],
       now := "t2" }] emptyKG
    { id := "e", ty := "robot", props := [("age", AttrVal.vnum 5)], now := "t2" }
    rfl (by decide) (by decide) rfl

theorem dot_self_nonneg (u : List ℚ) : 0 ≤ dot u u := by
  induction u with
  | nil => simp [dot]
  | cons a t ih =>
      show 0 ≤ a * a + dot t t
      have := mul_self_nonneg a
      linarith

theorem dot_zip_add (u v : List ℚ) (h : u.length = v.length) :
    dot (List.zipWith (· + ·) u v) (List.zipWith (· + ·) u v)
      = dot u u + 2 * dot u v + dot v v := by
  induction u generalizing v with
  | nil =>
      cases v with
      | nil => simp [dot]
      | cons b tv => simp at h
  | cons a tu ih =>
      cases v with
      | nil => simp at h
      | cons b tv =>
          have h2 : tu.length = tv.length := by simpa using h
          simp only [List.zipWith_cons_cons, dot]
          rw [ih tv h2]
          ring

theorem dot_zip_sub (u v : List ℚ) (h : u.length = v.length) :
    dot (List.zipWith (· - ·) u v) (List.zipWith (· - ·) u v)
      = dot u u - 2 * dot u v + dot v v := by
  induction u generalizing v with
  | nil =>
      cases v with
      | nil => simp [dot]
      | cons b tv => simp at h
  | cons a tu ih =>
      cases v with
      | nil => simp at h
      | cons b tv =>
          have h2 : tu.length = tv.length := by simpa using h
          simp only [List.zipWith_cons_cons, dot]
          rw [ih tv h2]
          ring

theorem dot_bounds (u v : List ℚ) (h : u.length = v.length)
    (hu : normSq u = 1) (hv : normSq v = 1) :
    -1 ≤ dot u v ∧ dot u v ≤ 1 := by
  unfold normSq at hu hv
  constructor
  · have h1 := dot_self_nonneg (List.zipWith (· + ·) u v)
    rw [dot_zip_add u v h, hu, hv] at h1
    linarith
  · have h1 := dot_self_nonneg (List.zipWith (· - ·) u v)
    rw [dot_zip_sub u v h, hu, hv] at h1
    linarith

/-- C1 (counterexample): on unit embeddings the cosine distance reaches 2
(opposite vectors), so `similarity = 1 - distance` reaches -1 and the
interval `[0,1]` of the claim is violated. -/
theorem claim_C1_counterexample :
    normSq [(1 : ℚ), 0] = 1 ∧
    normSq [(-1 : ℚ), 0] = 1 ∧
    (search_conversations
      [{ id := "c1", document := "User: hi\nAI: bye", user_input := "hi",
         ai_response := "bye", timestamp := "t",
         embedding := [(-1 : ℚ), 0] }] [(1 : ℚ), 0] 1).map
        (fun r => r.similarity) = [(-1 : ℚ)] ∧
    ¬ (0 : ℚ) ≤ (-1 : ℚ) := by
  refine ⟨by norm_num [normSq, dot], by norm_num [normSq, dot], ?_, by norm_num⟩
  simp only [search_conversations, queryCollection, sortLe, insertLe,
    cosineDist, dot, List.map_cons, List.map_nil, List.take]
  norm_num

/-- C1 (amended): `search_conversations` returns at most k results, sorted
by non-increasing similarity; with unit embeddings of a common dimension
every similarity lies in `[-1, 1]` (not `[0, 1]`). -/
theorem claim_C1_amended (entries : List ConvEntry) (qEmb : List ℚ) (k : Nat)
    (hq : normSq qEmb = 1)
    (he : ∀ e ∈ entries, normSq e.embedding = 1 ∧
        e.embedding.length = qEmb.length) :
    (search_conversations entries qEmb k).length ≤ k ∧
    (search_conversations entries qEmb k).Pairwise
      (fun r1 r2 => r2.similarity ≤ r1.similarity) ∧
    ∀ r ∈ search_conversations entries qEmb k,
      -1 ≤ r.similarity ∧ r.similarity ≤ 1 := by
  refine ⟨?_, ?_, ?_⟩
  · unfold search_conversations queryCollection
    rw [List.length_map]
    exact List.length_take_le _ _
  · unfold search_conversations queryCollection
    rw [List.pairwise_map]
    refine (pairwise_take_sortLe
        (fun (a b : ConvEntry × ℚ) => decide (a.2 ≤ b.2)) ?_ ?_
        (entries.map (fun e => (e, cosineDist qEmb e.embedding))) k).imp ?_
    · intro x y hxy
      simp at hxy ⊢
      linarith
    · intro x y z h1 h2
      simp at h1 h2 ⊢
      linarith
    · intro a b hab
      simp at hab
      show (1 : ℚ) - b.2 ≤ 1 - a.2
      linarith
  · intro r hr
    unfold search_conversations queryCollection at hr
    obtain ⟨p, hp, hfp⟩ := List.mem_map.mp hr
    have hp2 := (List.take_sublist _ _).subset hp
    have hp3 := (mem_sortLe _ _ _).mp hp2
    obtain ⟨e, he2, hpe⟩ := List.mem_map.mp hp3
    obtain ⟨hu, hlen⟩ := he e he2
    obtain ⟨hb1, hb2⟩ := dot_bounds qEmb e.embedding hlen.symm hq hu
    subst hpe
    rw [← hfp]
    constructor
    · show -1 ≤ 1 - cosineDist qEmb e.embedding
      unfold cosineDist
      linarith
    · show 1 - cosineDist qEmb e.embedding ≤ 1
      unfold cosineDist
      linarith

theorem claim_C1_witness :
    (search_conversations
      [{ id := "c0", document := "User: hi\nAI: hello", user_input := "hi",
         ai_response := "hello", timestamp := "t0",
         embedding := [(1 : ℚ), 0] }]
      [(1 : ℚ), 0] 5).length ≤ 5 ∧
    (search_conversations
      [{ id := "c0", document := "User: hi\nAI: hello", user_input := "hi",
         ai_response := "hello", timestamp := "t0",
         embedding := [(1 : ℚ), 0] }]
      [(1 : ℚ), 0] 5).Pairwise
      (fun r1 r2 => r2.similarity ≤ r1.similarity) ∧
    ∀ r ∈ (search_conversations
      [{ id := "c0", document := "User: hi\nAI: hello", user_input := "hi",
         ai_response := "hello", timestamp := "t0",
         embedding := [(1 : ℚ), 0] }]
      [(1 : ℚ), 0] 5),
      -1 ≤ r.similarity ∧ r.similarity ≤ 1 :=
  claim_C1_amended _ _ 5 (by norm_num [normSq, dot])
    (by
      intro e he
      simp only [List.mem_singleton] at he
      subst he
      exact ⟨by norm_num [normSq, dot], rfl⟩)

theorem trait_id_ne_user_profile (T : String) :
    ("trait_" ++ T) ≠ "user_profile" := by
  intro h
  have h2 : ("trait_" ++ T).data = "user_profile".data := congrArg String.data h
  rw [String.data_append] at h2
  have h3 : (List.head? (String.data "trait_" ++ String.data T)) = some 't' := rfl
  rw [h2] at h3
  exact absurd h3 (by decide)

theorem edges_add_entity (g : KG) (i ty : String) (p : Dict) (n : String) :
    (add_entity g i ty p n).edges = g.edges := rfl

/-- C2 (counterexample): with the empty trait name, the trait node is stored
and overwritten as usual, but `get_personality_summary` skips it because its
`trait_name` is falsy, so the summary has no entry for it at all. -/
theorem claim_C2_counterexample :
    sget (get_personality_summary
        (add_personality_trait
          (add_personality_trait emptyKG "" "a" 1 "" "t1") "" "b" 1 "" "t2"))
      (AttrVal.vstr "") = none ∧
    (get_entity (add_personality_trait
        (add_personality_trait emptyKG "" "a" 1 "" "t1") "" "b" 1 "" "t2")
      "trait_").bind (fun d => dget d "value") = some (AttrVal.vstr "b") := by
  constructor <;> rfl

/-- C2 (amended): for a nonempty trait name T and a fresh personality graph,
after `add_personality_trait T v1` then `add_personality_trait T v2` the
summary entry for T holds v2 (the single `trait_T` node was overwritten),
while `get_relationships "user_profile"` holds one `has_trait` edge to
`trait_T` per call — two in total. -/
theorem claim_C2_amended (T v1 v2 : String) (hT : T ≠ "") (hv : v1 ≠ v2)
    (c1 c2 : ℚ) (x1 x2 n1 n2 : String) :
    sget (get_personality_summary
        (add_personality_trait (add_personality_trait emptyKG T v1 c1 x1 n1)
          T v2 c2 x2 n2)) (AttrVal.vstr T)
      = some { value := some (AttrVal.vstr v2), confidence := AttrVal.vnum c2,
               context := AttrVal.vstr x2 } ∧
    ∃ rels, get_relationships
        (add_personality_trait (add_personality_trait emptyKG T v1 c1 x1 n1)
          T v2 c2 x2 n2) "user_profile" = Except.ok rels ∧
      (rels.filter (fun r => decide (r.rtype = AttrVal.vstr "has_trait")
          && decide (r.target = "trait_" ++ T))).length = 2 := by
  have hne := trait_id_ne_user_profile T
  have hne2 : "user_profile" ≠ "trait_" ++ T := fun h => hne h.symm
  have hnodes : (add_personality_trait
        (add_personality_trait emptyKG T v1 c1 x1 n1) T v2 c2 x2 n2).nodes
      = [("trait_" ++ T,
          [("type", AttrVal.vstr "personality_trait"),
           ("created_at", AttrVal.vstr n2), ("updated_at", AttrVal.vstr n2),
           ("trait_name", AttrVal.vstr T), ("value", AttrVal.vstr v2),
           ("confidence", AttrVal.vnum c2), ("context", AttrVal.vstr x2)]),
         ("user_profile",
          [("type", AttrVal.vstr "user"), ("created_at", AttrVal.vstr n2),
           ("updated_at", AttrVal.vstr n2)])] := by
    simp [add_personality_trait, add_relationship, add_entity, addEdgeNx,
      addNodeNx, hasNode, dupdate, dinsert, hne, hne2]
  have hsummary : get_personality_summary (add_personality_trait
        (add_personality_trait emptyKG T v1 c1 x1 n1) T v2 c2 x2 n2)
      = [(AttrVal.vstr T,
          { value := some (AttrVal.vstr v2), confidence := AttrVal.vnum c2,
            context := AttrVal.vstr x2 })] := by
    unfold get_personality_summary
    rw [hnodes]
    simp [summaryStep, dget, truthy, mkTraitSummary, sinsert, hT]
  have hedges : (add_personality_trait
        (add_personality_trait emptyKG T v1 c1 x1 n1) T v2 c2 x2 n2).edges
      = [("user_profile", "trait_" ++ T,
          [("type", AttrVal.vstr "has_trait"), ("created_at", AttrVal.vstr n1),
           ("weight", AttrVal.vnum 1), ("confidence", AttrVal.vnum c1),
           ("discovered_at", AttrVal.vstr n1)]),
         ("user_profile", "trait_" ++ T,
          [("type", AttrVal.vstr "has_trait"), ("created_at", AttrVal.vstr n2),
           ("weight", AttrVal.vnum 1), ("confidence", AttrVal.vnum c2),
           ("discovered_at", AttrVal.vstr n2)])] := by
    simp only [add_personality_trait, edges_add_relationship, edges_add_entity]
    simp [dupdate, dinsert, emptyKG]
  have hup : hasNode (add_personality_trait
        (add_personality_trait emptyKG T v1 c1 x1 n1) T v2 c2 x2 n2)
      "user_profile" = true := by
    unfold hasNode
    rw [hnodes]
    simp
  constructor
  · rw [hsummary]
    simp [sget]
  · refine
      ⟨[{ direction := "outgoing", source := "user_profile",
          target := "trait_" ++ T, rtype := AttrVal.vstr "has_trait",
          properties :=
            [("type", AttrVal.vstr "has_trait"),
             ("created_at", AttrVal.vstr n1), ("weight", AttrVal.vnum 1),
             ("confidence", AttrVal.vnum c1),
             ("discovered_at", AttrVal.vstr n1)] },
        { direction := "outgoing", source := "user_profile",
          target := "trait_" ++ T, rtype := AttrVal.vstr "has_trait",
          properties :=
            [("type", AttrVal.vstr "has_trait"),
             ("created_at", AttrVal.vstr n2), ("weight", AttrVal.vnum 1),
             ("confidence", AttrVal.vnum c2),
             ("discovered_at", AttrVal.vstr n2)] }], ?_, ?_⟩
    · unfold get_relationships
      rw [if_pos hup, hedges]
      simp [edgeType, dget, hne, hne2]
    · simp

theorem claim_C2_witness :
    sget (get_personality_summary
        (add_personality_trait
          (add_personality_trait emptyKG "interests" "music" (1/2) "a" "t1")
          "interests" "technology" (8/10) "b" "t2")) (AttrVal.vstr "interests")
      = some { value := some (AttrVal.vstr "technology"),
               confidence := AttrVal.vnum (8/10),
               context := AttrVal.vstr "b" } ∧
    ∃ rels, get_relationships
        (add_personality_trait
          (add_personality_trait emptyKG "interests" "music" (1/2) "a" "t1")
          "interests" "technology" (8/10) "b" "t2") "user_profile"
        = Except.ok rels ∧
      (rels.filter (fun r => decide (r.rtype = AttrVal.vstr "has_trait")
          && decide (r.target = "trait_" ++ "interests"))).length = 2 :=
  claim_C2_amended "interests" "music" "technology" (by decide) (by decide)
    (1/2) (8/10) "a" "b" "t1" "t2"

theorem claim_C5_witness :
    (search_entities (add_entity emptyKG "alice" "person" [] "t0") "ali"
      none).length ≤ 20 ∧
    (search_entities (add_entity emptyKG "alice" "person" [] "t0") "ali"
      none).Pairwise (fun r1 r2 => r2.score ≤ r1.score) ∧
    (0 < ({ entity_id := "alice", etype := AttrVal.vstr "person", score := 2,
            properties := [("type", AttrVal.vstr "person"),
              ("created_at", AttrVal.vstr "t0"),
              ("updated_at", AttrVal.vstr "t0")] } : SearchResult).score ∧
      ({ entity_id := "alice", etype := AttrVal.vstr "person", score := 2,
         properties := [("type", AttrVal.vstr "person"),
           ("created_at", AttrVal.vstr "t0"),
           ("updated_at", AttrVal.vstr "t0")] } : SearchResult).score
        = matchScore (lowerData "ali") "alice" [("type", AttrVal.vstr "person"),
            ("created_at", AttrVal.vstr "t0"),
            ("updated_at", AttrVal.vstr "t0")] ∧
      (listSub (lowerData "ali") (lowerData "alice") = true ∨
        ∃ kv ∈ [("type", AttrVal.vstr "person"),
            ("created_at", AttrVal.vstr "t0"),
            ("updated_at", AttrVal.vstr "t0")],
          valMatches (lowerData "ali") kv.2 = true) ∧
      ("alice", [("type", AttrVal.vstr "person"),
        ("created_at", AttrVal.vstr "t0"),
        ("updated_at", AttrVal.vstr "t0")])
          ∈ (add_entity emptyKG "alice" "person" [] "t0").nodes) :=
  ⟨(claim_C5 (add_entity emptyKG "alice" "person" [] "t0") "ali" none).1,
   (claim_C5 (add_entity emptyKG "alice" "person" [] "t0") "ali" none).2.1,
   (claim_C5 (add_entity emptyKG "alice" "person" [] "t0") "ali" none).2.2
     _ (by decide)⟩

theorem claim_C8_witness :
    (∃ o ∈ update_personality_insights "I love programming" "",
        o.trait = "communication_style" ∧ o.value = "concise" ∧
        o.confidence = 7/10) ∧
    (∃ o ∈ update_personality_insights "I love programming" "",
        o.trait = "interests" ∧ o.value = "technology" ∧
        o.confidence = 8/10) :=
  ⟨(claim_C8 "I love programming" "").2.1.mpr (by decide),
   (claim_C8 "I love programming" "").2.2.2.1.mpr (by decide)⟩

end AISystem
